import Mathlib

/-!
Verification of the core logic of the collection-group mapping tool.

The Python sources are shallow-embedded as executable Lean definitions:
Python strings that undergo split/join/count manipulation are modelled as
character lists, Python dicts as association lists with insert-replace
semantics, the CSV permission matrix as an association list from path to an
association list from group name to label, and raising code as functions into
Except or as total functions returning the performed effects.  Each definition
is annotated with the source file and lines it embeds.
-/

namespace CGMap

/-- Python path.split on a single slash character, over a string modelled as a
character list; embeds src/csv_parser.py line 44 (path.split applied to a
slash).  Python semantics: splitting the empty string yields one empty field,
every separator occurrence starts a new field. -/
def splitSlash : List Char → List (List Char)
  | [] => [[]]
  | c :: rest =>
    if c = '/' then [] :: splitSlash rest
    else (c :: (splitSlash rest).headI) :: (splitSlash rest).tail

/-- Python slash-join over fields; embeds src/csv_parser.py line 46
(the join of parts taken so far with a slash separator). -/
def joinSlash : List (List Char) → List Char
  | [] => []
  | [s] => s
  | s :: t :: rest => s ++ '/' :: joinSlash (t :: rest)

/-- Python x.count applied to a slash; embeds the sort key of
src/bitwarden_collections.py line 95. -/
def slashCount (s : List Char) : Nat := s.count '/'

/-- The slash-join of the first i+1 segments of p; embeds the loop body of
src/csv_parser.py lines 45-46 for one value of i. -/
def segTake (p : List Char) (i : Nat) : List Char :=
  joinSlash ((splitSlash p).take (i + 1))

/-- All paths implied by one raw path p, one per segment index; embeds the
inner loop of src/csv_parser.py lines 44-47. -/
def impliedPaths (p : List Char) : List (List Char) :=
  (List.range (splitSlash p).length).map (segTake p)

/-- get_unique_collections of src/csv_parser.py lines 39-48; the Python set is
modelled as a deduplicated list (membership is all that matters). -/
def get_unique_collections (paths : List (List Char)) : List (List Char) :=
  (paths.flatMap impliedPaths).dedup

/-- Python string comparison (lexicographic by code point), used by sorted on
the second key component in src/bitwarden_collections.py line 95. -/
def charListLE : List Char → List Char → Bool
  | [], _ => true
  | _ :: _, [] => false
  | a :: as, b :: bs =>
    if a < b then true else if b < a then false else charListLE as bs

/-- The key comparison of sorted with key (x.count of slash, x):
src/bitwarden_collections.py line 95. -/
def pyKeyLE (a b : List Char) : Bool :=
  decide (slashCount a < slashCount b) ||
    (decide (slashCount a = slashCount b) && charListLE a b)

/-- The creation order used by create_collections_from_paths
(src/bitwarden_collections.py lines 92-107): the given paths sorted by the
(separator count, path) key.  Since all keys of distinct paths are distinct,
any correct sort produces the same list Python's sorted does. -/
def create_collections_order (paths : List (List Char)) : List (List Char) :=
  paths.mergeSort pyKeyLE

/-- x is a proper slash-ancestor of p: x is the join of a strict initial
run of the slash-separated segments of p. -/
def properSlashAncestor (x p : List Char) : Prop :=
  ∃ k, k + 1 < (splitSlash p).length ∧ x = segTake p k

/-- Python dict.get over a dict modelled as an association list with unique
keys (first binding wins, as in any list built by dictInsert). -/
def lookup? {α : Type} : List (String × α) → String → Option α
  | [], _ => none
  | e :: rest, k => if e.1 = k then some e.2 else lookup? rest k

/-- Python dict.get with a default value. -/
def dictGetD {α : Type} (m : List (String × α)) (k : String) (d : α) : α :=
  (lookup? m k).getD d

/-- Python dict assignment d[k] = v: replaces the value at an existing key in
place, else appends a new binding at the end. -/
def dictInsert {α : Type} : List (String × α) → String → α → List (String × α)
  | [], k, v => [(k, v)]
  | e :: rest, k, v => if e.1 = k then (k, v) :: rest else e :: dictInsert rest k v

/-- One CSV data row as DictReader hands it to parse: the Path cell and the
group-column cells. -/
abbrev Row := String × List (String × String)

/-- The dict comprehension of src/csv_parser.py lines 29-31: the row projected
onto the declared group columns.  DictReader guarantees every declared column
is present in every row, so the default never fires on real input. -/
def projectRow (groups : List String) (cells : List (String × String)) :
    List (String × String) :=
  groups.map (fun g => (g, dictGetD cells g ""))

/-- The result dict of parse (src/csv_parser.py lines 33-37). -/
structure ParsedCSV where
  collections : List String
  groups : List String
  permissions : List (String × List (String × String))
deriving DecidableEq, Repr

/-- The loop body of parse (src/csv_parser.py lines 24-31): append the row's
path to collections and assign the projected row into the permissions dict. -/
def parseStep (groups : List String)
    (acc : List String × List (String × List (String × String))) (row : Row) :
    List String × List (String × List (String × String)) :=
  (acc.1 ++ [row.1], dictInsert acc.2 row.1 (projectRow groups row.2))

/-- parse of src/csv_parser.py lines 15-37, with the CSV already decoded into
its header-derived group list and its data rows.  parse performs no validation
of path values or cell labels. -/
def parseRows (groups : List String) (rows : List Row) : ParsedCSV :=
  let r := rows.foldl (parseStep groups) ([], [])
  ⟨r.1, groups, r.2⟩

/-- The tri-boolean rights tuple of the remote API. -/
structure Rights where
  readOnly : Bool
  hidePasswords : Bool
  manage : Bool
deriving DecidableEq, Repr

/-- permission_mapping of src/bitwarden_permissions.py lines 35-40, as
observed through the dict.get at line 160: the None entry holds Python None
and an absent key yields Python None, both modelled as none. -/
def permission_mapping (label : String) : Option Rights :=
  if label = "Read" then some ⟨true, false, false⟩
  else if label = "Edit" then some ⟨false, false, false⟩
  else if label = "Manage" then some ⟨false, false, true⟩
  else none

/-- One association object built at src/bitwarden_permissions.py lines
166-169. -/
structure Assoc where
  id : String
  readOnly : Bool
  hidePasswords : Bool
  manage : Bool
deriving DecidableEq, Repr

/-- The permission matrix: collection path to (group name to label), as parse
returns it. -/
abbrev PermMatrix := List (String × List (String × String))

/-- The loop body of convert_csv_to_api_permissions
(src/bitwarden_permissions.py lines 146-170) for one matrix entry: the cell
defaults to the label None when the group is absent from the row; a None label
is skipped; a missing collection ID is skipped with a warning (Python's
falsiness test also skips an empty-string ID); an unknown label is skipped
with a warning; otherwise one association is produced. -/
def assocEntryFor (collection_ids : List (String × String)) (group_name : String)
    (collection_path : String) (group_perms : List (String × String)) : List Assoc :=
  let permission_level := dictGetD group_perms group_name "None"
  if permission_level = "None" then []
  else
    match lookup? collection_ids collection_path with
    | none => []
    | some collection_id =>
      if collection_id = "" then []
      else
        match permission_mapping permission_level with
        | none => []
        | some r => [⟨collection_id, r.readOnly, r.hidePasswords, r.manage⟩]

/-- convert_csv_to_api_permissions of src/bitwarden_permissions.py lines
134-173: the association lists per matrix entry, concatenated in matrix
order. -/
def convert_csv_to_api_permissions (collection_ids : List (String × String))
    (permission_matrix : PermMatrix) (group_name : String) : List Assoc :=
  permission_matrix.flatMap (fun e => assocEntryFor collection_ids group_name e.1 e.2)

/-- validate_permissions of src/bitwarden_permissions.py lines 249-298: the
loaded maps and the matrix must be nonempty, every matrix path must have a
collection ID, and every group key appearing in any matrix row must have a
group ID.  The code collects the row keys into one set before checking; the
conjunction of per-row checks is the same condition. -/
def validate_permissions (collection_ids group_ids : List (String × String))
    (permission_matrix : PermMatrix) : Bool :=
  (!collection_ids.isEmpty) && (!group_ids.isEmpty) && (!permission_matrix.isEmpty) &&
  permission_matrix.all (fun e => (lookup? collection_ids e.1).isSome) &&
  permission_matrix.all (fun e => e.2.all (fun c => (lookup? group_ids c.1).isSome))

/-- The attribute names defined on class BulkLogger (src/bulk_logger.py lines
67-291), used to model Python attribute lookup on the logger object. -/
def bulkLoggerMethods : List String :=
  ["__init__", "_setup_python_logging", "log_collection_created",
   "log_collection_failed", "log_group_created", "log_group_failed",
   "log_permission_mapped", "log_permission_failed", "finalise_operation",
   "get_created_collections", "get_created_groups", "_get_org_id_from_logs",
   "_save_log"]

/-- One group update submitted by assign_permissions_to_group
(src/bitwarden_permissions.py lines 175-230): the PUT body for one group. -/
structure GroupUpdate where
  group_name : String
  group_id : String
  collections : List Assoc
deriving DecidableEq, Repr

/-- The ways the permissions phase can end. -/
inductive PhaseOutcome
  | ok
  | valueError (msg : String)
  | attributeError (name : String)
deriving DecidableEq, Repr

/-- assign_all_permissions of src/bitwarden_permissions.py lines 300-361, with
parse_csv_permissions and the two ID loads abstracted into the three inputs.
Returns the group updates submitted together with the outcome.  A validation
failure raises ValueError before any update (line 321).  Otherwise every
loaded group that appears in some matrix row is updated (lines 328-342), and
then line 346 performs the attribute lookup finalize_operation on the
BulkLogger object, which raises AttributeError when the class defines no such
attribute; updates already submitted stay submitted. -/
def assign_all_permissions (collection_ids group_ids : List (String × String))
    (permission_matrix : PermMatrix) : List GroupUpdate × PhaseOutcome :=
  if validate_permissions collection_ids group_ids permission_matrix then
    let updates := group_ids.filterMap (fun gi =>
      if permission_matrix.any (fun e => (lookup? e.2 gi.1).isSome) then
        some ⟨gi.1, gi.2, convert_csv_to_api_permissions collection_ids permission_matrix gi.1⟩
      else none)
    if bulkLoggerMethods.contains "finalize_operation" then
      (updates, PhaseOutcome.ok)
    else
      (updates, PhaseOutcome.attributeError "finalize_operation")
  else ([], PhaseOutcome.valueError "Permission validation failed")

/-- Step 4 of create_all_groups (src/bitwarden_groups.py lines 163-170): the
group names that will be passed to create_group are exactly the CSV group
names not already existing remotely, in CSV order. -/
def groups_to_create (existing_groups : List (String × String))
    (groups_data : List String) : List String :=
  groups_data.filter (fun g => !(lookup? existing_groups g).isSome)

/-- The creation attempts of create_collections_from_paths
(src/bitwarden_collections.py lines 92-107): every given path is passed to
create_collection, in sorted order.  The function consults no remote state:
it takes no account of collections that already exist. -/
def create_collections_from_paths_attempts (collection_paths : List (List Char)) :
    List (List Char) :=
  create_collections_order collection_paths

/-- One entry of a collection_creation record set: the fields of CollectionLog
(src/bulk_logger.py lines 20-28) that load_collection_ids reads. -/
structure CollectionRecord where
  collection_path : String
  collection_id : String
  status : String
deriving DecidableEq, Repr

/-- Python max over the globbed files keyed by modification time
(src/bitwarden_permissions.py line 80): a strictly later element replaces the
current maximum, so the first element of maximal key wins ties. -/
def maxByMtime : List (Nat × List CollectionRecord) → Option (Nat × List CollectionRecord)
  | [] => none
  | x :: xs => some (xs.foldl (fun best y => if best.1 < y.1 then y else best) x)

/-- The mapping-building loop of load_collection_ids
(src/bitwarden_permissions.py lines 87-91): entries with status created are
inserted, all others are ignored; self.collection_ids starts empty. -/
def build_collection_ids (entries : List CollectionRecord) : List (String × String) :=
  entries.foldl
    (fun acc e =>
      if e.status = "created" then dictInsert acc e.collection_path e.collection_id
      else acc)
    []

/-- load_collection_ids (src/bitwarden_permissions.py lines 65-101), with the
glob result modelled as the list of (modification time, record set) pairs;
none models the FileNotFoundError raise when no record sets exist. -/
def load_collection_ids (sets : List (Nat × List CollectionRecord)) :
    Option (List (String × String)) :=
  (maxByMtime sets).map (fun s => build_collection_ids s.2)

/-- Two record sets for the witness: the set with modification time 2 is the
most recent and holds one created and one failed record. -/
def sampleRecordSets : List (Nat × List CollectionRecord) :=
  [(1, [⟨"A", "oldid", "created"⟩]),
   (2, [⟨"A", "newid", "created"⟩, ⟨"B", "", "failed"⟩])]

theorem splitSlash_ne_nil (s : List Char) : splitSlash s ≠ [] := by
  cases s with
  | nil => simp [splitSlash]
  | cons c rest =>
    simp only [splitSlash]
    split <;> simp

theorem joinSlash_splitSlash (s : List Char) : joinSlash (splitSlash s) = s := by
  induction s with
  | nil => rfl
  | cons c rest ih =>
    obtain ⟨seg, segs, hss⟩ := List.exists_cons_of_ne_nil (splitSlash_ne_nil rest)
    by_cases hc : c = '/'
    · subst hc
      simp only [splitSlash, if_pos rfl, hss]
      show ([] : List Char) ++ '/' :: joinSlash (seg :: segs) = '/' :: rest
      rw [List.nil_append, ← hss, ih]
    · simp only [splitSlash, if_neg hc, hss, List.headI, List.tail]
      cases segs with
      | nil =>
        show (c :: seg : List Char) = c :: rest
        have : joinSlash [seg] = seg := rfl
        rw [hss] at ih
        simpa [this] using congrArg (c :: ·) ih
      | cons t ts =>
        show (c :: seg : List Char) ++ '/' :: joinSlash (t :: ts) = c :: rest
        rw [hss] at ih
        have : joinSlash (seg :: t :: ts) = seg ++ '/' :: joinSlash (t :: ts) := rfl
        rw [this] at ih
        simp [List.cons_append, ih]

theorem length_splitSlash (s : List Char) : (splitSlash s).length = slashCount s + 1 := by
  induction s with
  | nil => rfl
  | cons c rest ih =>
    obtain ⟨seg, segs, hss⟩ := List.exists_cons_of_ne_nil (splitSlash_ne_nil rest)
    by_cases hc : c = '/'
    · subst hc
      have hcnt : slashCount ('/' :: rest) = slashCount rest + 1 := by
        simp [slashCount, List.count_cons]
      simp [splitSlash, ih, hcnt]
    · simp only [splitSlash, if_neg hc, hss, List.headI, List.tail, List.length_cons]
      rw [hss] at ih
      simp only [List.length_cons] at ih
      have hcnt : slashCount (c :: rest) = slashCount rest := by
        simp [slashCount, List.count_cons, hc]
      omega

theorem not_slash_of_mem_splitSlash {s : List Char} :
    ∀ {seg : List Char}, seg ∈ splitSlash s → '/' ∉ seg := by
  induction s with
  | nil =>
    intro seg h
    simp only [splitSlash, List.mem_singleton] at h
    subst h; simp
  | cons c rest ih =>
    intro seg h
    obtain ⟨seg0, segs, hss⟩ := List.exists_cons_of_ne_nil (splitSlash_ne_nil rest)
    by_cases hc : c = '/'
    · subst hc
      simp only [splitSlash, if_true, eq_self_iff_true, if_pos] at h
      rcases List.mem_cons.mp h with h | h
      · subst h; simp
      · exact ih h
    · simp only [splitSlash, if_neg hc, hss, List.headI, List.tail, List.mem_cons] at h
      rcases h with h | h
      · subst h
        intro hmem
        rcases List.mem_cons.mp hmem with h1 | h1
        · exact hc h1.symm
        · exact ih (hss ▸ List.mem_cons_self seg0 segs) h1
      · exact ih (hss ▸ List.mem_cons_of_mem seg0 h)

theorem slashCount_joinSlash (l : List (List Char)) (hl : l ≠ [])
    (h : ∀ seg ∈ l, '/' ∉ seg) : slashCount (joinSlash l) + 1 = l.length := by
  induction l with
  | nil => cases hl rfl
  | cons s rest ih =>
    cases rest with
    | nil =>
      have hs : '/' ∉ s := h s (List.mem_cons_self s [])
      have : joinSlash [s] = s := rfl
      simp [this, slashCount, List.count_eq_zero.mpr hs]
    | cons t ts =>
      have hj : joinSlash (s :: t :: ts) = s ++ '/' :: joinSlash (t :: ts) := rfl
      have hs : '/' ∉ s := h s (List.mem_cons_self s (t :: ts))
      have hrest : ∀ seg ∈ t :: ts, '/' ∉ seg := fun seg hseg =>
        h seg (List.mem_cons_of_mem s hseg)
      have ihr := ih (by simp) hrest
      simp only [hj, slashCount, List.count_append, List.count_cons,
        List.count_eq_zero.mpr hs] at *
      simp only [List.length_cons] at *
      have : (('/' : Char) == '/') = true := by simp
      simp [this] at *
      omega

theorem charListLE_total (a b : List Char) :
    charListLE a b = true ∨ charListLE b a = true := by
  induction a generalizing b with
  | nil => left; rfl
  | cons x xs ih =>
    cases b with
    | nil => right; rfl
    | cons y ys =>
      rcases lt_trichotomy x y with hxy | hxy | hxy
      · left; simp [charListLE, hxy]
      · subst hxy
        rcases ih ys with h | h
        · left; simp [charListLE, lt_irrefl, h]
        · right; simp [charListLE, lt_irrefl, h]
      · right; simp [charListLE, hxy]

theorem charListLE_trans {a b c : List Char}
    (hab : charListLE a b = true) (hbc : charListLE b c = true) :
    charListLE a c = true := by
  induction a generalizing b c with
  | nil => rfl
  | cons x xs ih =>
    cases b with
    | nil => simp [charListLE] at hab
    | cons y ys =>
      cases c with
      | nil => simp [charListLE] at hbc
      | cons z zs =>
        simp only [charListLE] at hab hbc ⊢
        rcases lt_trichotomy x y with hxy | hxy | hxy
        · rcases lt_trichotomy y z with hyz | hyz | hyz
          · simp [lt_trans hxy hyz]
          · subst hyz; simp [hxy]
          · rw [if_neg (not_lt.mpr (le_of_lt hyz)), if_pos hyz] at hbc
            exact (Bool.false_ne_true hbc).elim
        · subst hxy
          rcases lt_trichotomy x z with hxz | hxz | hxz
          · simp [hxz]
          · subst hxz
            rw [if_neg (lt_irrefl x), if_neg (lt_irrefl x)] at hab hbc ⊢
            exact ih hab hbc
          · rw [if_neg (not_lt.mpr (le_of_lt hxz)), if_pos hxz] at hbc
            exact (Bool.false_ne_true hbc).elim
        · rw [if_neg (not_lt.mpr (le_of_lt hxy)), if_pos hxy] at hab
          exact (Bool.false_ne_true hab).elim

theorem pyKeyLE_total (a b : List Char) :
    (pyKeyLE a b || pyKeyLE b a) = true := by
  simp only [pyKeyLE, Bool.or_eq_true, decide_eq_true_eq, Bool.and_eq_true]
  rcases lt_trichotomy (slashCount a) (slashCount b) with h | h | h
  · tauto
  · rcases charListLE_total a b with hc | hc <;> tauto
  · tauto

theorem pyKeyLE_trans (a b c : List Char)
    (hab : pyKeyLE a b = true) (hbc : pyKeyLE b c = true) :
    pyKeyLE a c = true := by
  simp only [pyKeyLE, Bool.or_eq_true, decide_eq_true_eq, Bool.and_eq_true] at hab hbc ⊢
  rcases hab with h1 | ⟨h1, h1'⟩ <;> rcases hbc with h2 | ⟨h2, h2'⟩
  · exact Or.inl (lt_trans h1 h2)
  · exact Or.inl (h2 ▸ h1)
  · exact Or.inl (h1 ▸ h2)
  · exact Or.inr ⟨h1.trans h2, charListLE_trans h1' h2'⟩

theorem slashCount_segTake (p : List Char) (k : Nat)
    (hk : k < (splitSlash p).length) : slashCount (segTake p k) = k := by
  have hlen : ((splitSlash p).take (k + 1)).length = k + 1 := by
    rw [List.length_take]
    omega
  have hne : (splitSlash p).take (k + 1) ≠ [] := by
    intro h
    rw [h] at hlen
    simp at hlen
  have hmem : ∀ seg ∈ (splitSlash p).take (k + 1), '/' ∉ seg := fun seg hseg =>
    not_slash_of_mem_splitSlash (List.take_subset _ _ hseg)
  have := slashCount_joinSlash _ hne hmem
  rw [hlen] at this
  simpa [segTake] using Nat.succ_injective this

theorem slashCount_lt_of_properSlashAncestor {x p : List Char}
    (h : properSlashAncestor x p) : slashCount x < slashCount p := by
  obtain ⟨k, hk, hx⟩ := h
  have hlen := length_splitSlash p
  have : slashCount x = k := by
    rw [hx]
    exact slashCount_segTake p k (by omega)
  omega

/-- Claim C1: for every list of collection paths parsed from the matrix, the
output of get_unique_collections contains every proper slash-ancestor of every
path, and the creation order obtained by sorting with key (separator count
ascending, then path lexicographic) places each proper slash-ancestor strictly
before every output path that it is an ancestor of. -/
theorem C1_hierarchy_closure_and_creation_order
    (paths : List (List Char)) (p x : List Char) (hp : p ∈ paths)
    (hx : properSlashAncestor x p) :
    x ∈ get_unique_collections paths ∧
    ∀ q, q ∈ get_unique_collections paths → properSlashAncestor x q →
      ∀ i j (hi : i < (create_collections_order (get_unique_collections paths)).length)
        (hj : j < (create_collections_order (get_unique_collections paths)).length),
        (create_collections_order (get_unique_collections paths)).get ⟨i, hi⟩ = x →
        (create_collections_order (get_unique_collections paths)).get ⟨j, hj⟩ = q →
        i < j := by
  obtain ⟨k, hk, hxe⟩ := hx
  have h1 : x ∈ get_unique_collections paths := by
    rw [get_unique_collections, List.mem_dedup, List.mem_flatMap]
    refine ⟨p, hp, ?_⟩
    rw [impliedPaths, List.mem_map]
    exact ⟨k, List.mem_range.mpr (by omega), hxe.symm⟩
  refine ⟨h1, ?_⟩
  intro q _hq hxq i j hi hj hgi hgj
  have hsorted : List.Pairwise (fun a b => pyKeyLE a b = true)
      (create_collections_order (get_unique_collections paths)) :=
    List.sorted_mergeSort pyKeyLE_trans pyKeyLE_total _
  have hcnt : slashCount x < slashCount q := slashCount_lt_of_properSlashAncestor hxq
  rcases lt_trichotomy i j with h | h | h
  · exact h
  · subst h
    have hxq' : x = q := by rw [← hgi, hgj]
    rw [hxq'] at hcnt
    exact absurd hcnt (lt_irrefl _)
  · have hp2 := List.pairwise_iff_get.mp hsorted ⟨j, hj⟩ ⟨i, hi⟩ h
    rw [hgi, hgj] at hp2
    simp only [pyKeyLE, Bool.or_eq_true, decide_eq_true_eq, Bool.and_eq_true] at hp2
    rcases hp2 with h' | ⟨h', _⟩ <;> omega

/-- Witness for C1: the path a/b of the one-row matrix has the proper
slash-ancestor a, which the resolver output contains. -/
theorem C1_hierarchy_closure_and_creation_order_witness :
    (['a', '/', 'b'] ∈ [['a', '/', 'b']]) ∧
    properSlashAncestor ['a'] ['a', '/', 'b'] ∧
    ['a'] ∈ get_unique_collections [['a', '/', 'b']] :=
  ⟨by decide, ⟨0, by decide, by decide⟩,
    (C1_hierarchy_closure_and_creation_order [['a', '/', 'b']] ['a', '/', 'b'] ['a']
      (by decide) ⟨0, by decide, by decide⟩).1⟩

theorem lookup?_dictInsert_self {α : Type} (m : List (String × α)) (k : String) (v : α) :
    lookup? (dictInsert m k v) k = some v := by
  induction m with
  | nil => simp [dictInsert, lookup?]
  | cons e rest ih =>
    by_cases h : e.1 = k
    · simp [dictInsert, h, lookup?]
    · simp [dictInsert, h, lookup?, ih]

theorem lookup?_cons {α : Type} (e : String × α) (rest : List (String × α))
    (k : String) :
    lookup? (e :: rest) k = if e.1 = k then some e.2 else lookup? rest k := rfl

theorem dictInsert_cons {α : Type} (e : String × α) (rest : List (String × α))
    (k : String) (v : α) :
    dictInsert (e :: rest) k v =
      if e.1 = k then (k, v) :: rest else e :: dictInsert rest k v := rfl

theorem lookup?_dictInsert_ne {α : Type} (m : List (String × α)) (k k' : String) (v : α)
    (h : k' ≠ k) : lookup? (dictInsert m k v) k' = lookup? m k' := by
  have hk : ¬k = k' := fun hh => h hh.symm
  induction m with
  | nil => simp [dictInsert, lookup?, hk]
  | cons e rest ih =>
    by_cases he : e.1 = k
    · rw [dictInsert_cons, if_pos he, lookup?_cons, lookup?_cons, if_neg hk, he,
        if_neg hk]
    · rw [dictInsert_cons, if_neg he, lookup?_cons, lookup?_cons]
      by_cases h2 : e.1 = k'
      · rw [if_pos h2, if_pos h2]
      · rw [if_neg h2, if_neg h2, ih]

theorem parse_foldl_fst (groups : List String) (rows : List Row)
    (cs : List String) (ps : List (String × List (String × String))) :
    (rows.foldl (parseStep groups) (cs, ps)).1 = cs ++ rows.map Prod.fst := by
  induction rows generalizing cs ps with
  | nil => simp
  | cons r rs ih =>
    simp only [List.foldl_cons, List.map_cons]
    rw [parseStep, ih]
    simp

theorem parse_foldl_lookup (groups : List String) (rows : List Row) (X : String)
    (cs : List String) (ps : List (String × List (String × String))) :
    lookup? (rows.foldl (parseStep groups) (cs, ps)).2 X =
      (rows.filter (fun r => r.1 == X)).getLast?.elim (lookup? ps X)
        (fun r => some (projectRow groups r.2)) := by
  induction rows generalizing cs ps with
  | nil => simp
  | cons r rs ih =>
    simp only [List.foldl_cons]
    rw [parseStep, ih]
    by_cases hr : r.1 = X
    · have hbeq : (r.1 == X) = true := beq_iff_eq.mpr hr
      rw [List.filter_cons, hbeq, if_pos rfl]
      cases h2 : rs.filter (fun r => r.1 == X) with
      | nil =>
        rw [hr]
        simp [lookup?_dictInsert_self]
      | cons b bs =>
        rw [List.getLast?_cons_cons]
        obtain ⟨last, hlast⟩ := Option.isSome_iff_exists.mp
          (List.getLast?_isSome.mpr (List.cons_ne_nil b bs))
        rw [hlast]
        rfl
    · have hbeq : (r.1 == X) = false := beq_eq_false_iff_ne.mpr hr
      rw [List.filter_cons, hbeq, if_neg (by simp)]
      rw [lookup?_dictInsert_ne _ _ _ _ (fun hh => hr hh.symm)]

theorem parseRows_collections (groups : List String) (rows : List Row) :
    (parseRows groups rows).collections = rows.map Prod.fst := by
  show (rows.foldl (parseStep groups) ([], [])).1 = rows.map Prod.fst
  rw [parse_foldl_fst]
  simp

theorem parseRows_permissions_lookup (groups : List String) (rows : List Row)
    (X : String) :
    lookup? (parseRows groups rows).permissions X =
      (rows.filter (fun r => r.1 == X)).getLast?.map
        (fun r => projectRow groups r.2) := by
  show lookup? (rows.foldl (parseStep groups) ([], [])).2 X = _
  rw [parse_foldl_lookup]
  cases (rows.filter (fun r => r.1 == X)).getLast? <;> rfl

/-- Claim C10: when the same path value appears in more than one data row, the
parsed permission mapping holds for that path exactly the projected cells of
the last such row, while the ordered collections list retains one occurrence
of the path per row, in row order. -/
theorem C10_duplicate_path_rows (groups : List String) (rows : List Row)
    (X : String) :
    (parseRows groups rows).collections = rows.map Prod.fst ∧
    lookup? (parseRows groups rows).permissions X =
      (rows.filter (fun r => r.1 == X)).getLast?.map
        (fun r => projectRow groups r.2) :=
  ⟨parseRows_collections groups rows, parseRows_permissions_lookup groups rows X⟩

/-- Counterexample to claim C4 as stated: a CSV whose single data row has the
empty string as its path value parses without any failure, and the empty
string appears as a collection path in the result; no ParseError exists in the
code and parse performs no path validation. -/
theorem C4_counterexample :
    (parseRows ["G1"] [("", [("G1", "Read")])]).collections = [""] ∧
    (parseRows ["G1"] [("", [("G1", "Read")])]).permissions =
      [("", [("G1", "Read")])] := by decide

/-- Claim C4 (amended): parsing a CSV containing a data row whose path value
is the empty string succeeds, and the empty string appears as a collection
path in the parse result; no ParseError is raised because parse validates
nothing. -/
theorem C4_empty_path_accepted (groups : List String) (rows : List Row)
    (cells : List (String × String)) (h : ("", cells) ∈ rows) :
    "" ∈ (parseRows groups rows).collections := by
  rw [parseRows_collections]
  exact List.mem_map.mpr ⟨("", cells), h, rfl⟩

/-- Witness for the amended C4 at a one-row CSV with an empty path. -/
theorem C4_empty_path_accepted_witness :
    ((("", [("G1", "Read")]) : Row) ∈ ([("", [("G1", "Read")])] : List Row)) ∧
    "" ∈ (parseRows ["G1"] [("", [("G1", "Read")])]).collections :=
  ⟨by decide,
    C4_empty_path_accepted ["G1"] [("", [("G1", "Read")])] [("G1", "Read")] (by decide)⟩

/-- Claim C2: the association list built for a group maps the label Read to
rights (readOnly true, hidePasswords false, manage false), Edit to (false,
false, false), Manage to (false, false, true); the three tuples are pairwise
distinct and fixed; and a cell labelled None produces no association entry at
all for that path-group pair. -/
theorem C2_label_rights_table :
    permission_mapping "Read" = some ⟨true, false, false⟩ ∧
    permission_mapping "Edit" = some ⟨false, false, false⟩ ∧
    permission_mapping "Manage" = some ⟨false, false, true⟩ ∧
    (⟨true, false, false⟩ : Rights) ≠ ⟨false, false, false⟩ ∧
    (⟨true, false, false⟩ : Rights) ≠ ⟨false, false, true⟩ ∧
    (⟨false, false, false⟩ : Rights) ≠ ⟨false, false, true⟩ ∧
    (∀ ids g path perms cid,
      lookup? ids path = some cid → cid ≠ "" →
      (dictGetD perms g "None" = "Read" →
        assocEntryFor ids g path perms = [⟨cid, true, false, false⟩]) ∧
      (dictGetD perms g "None" = "Edit" →
        assocEntryFor ids g path perms = [⟨cid, false, false, false⟩]) ∧
      (dictGetD perms g "None" = "Manage" →
        assocEntryFor ids g path perms = [⟨cid, false, false, true⟩])) ∧
    (∀ ids g path perms, dictGetD perms g "None" = "None" →
      assocEntryFor ids g path perms = []) := by
  refine ⟨by decide, by decide, by decide, by decide, by decide, by decide, ?_, ?_⟩
  · intro ids g path perms cid hcid hne
    refine ⟨?_, ?_, ?_⟩ <;> intro hl <;>
      simp [assocEntryFor, hl, hcid, hne, permission_mapping]
  · intro ids g path perms hl
    simp [assocEntryFor, hl]

/-- Witness for C2 on a one-cell matrix: a Read cell yields exactly the Read
rights tuple, a None cell yields nothing. -/
theorem C2_label_rights_table_witness :
    assocEntryFor [("A", "cid1")] "G1" "A" [("G1", "Read")] =
      [⟨"cid1", true, false, false⟩] ∧
    assocEntryFor [("A", "cid1")] "G1" "A" [("G1", "None")] = [] :=
  ⟨(C2_label_rights_table.2.2.2.2.2.2.1 [("A", "cid1")] "G1" "A" [("G1", "Read")]
      "cid1" (by decide) (by decide)).1 (by decide),
    C2_label_rights_table.2.2.2.2.2.2.2 [("A", "cid1")] "G1" "A" [("G1", "None")]
      (by decide)⟩

/-- Counterexample to claim C3 as stated: a cell carrying the unrecognized
label Owner does not fail with a validation error anywhere: parse stores the
label untouched, and the association assembly maps it to no rights tuple and
silently skips the cell, yielding an empty association list without
raising. -/
theorem C3_counterexample :
    permission_mapping "Owner" = none ∧
    assocEntryFor [("A", "cid1")] "G1" "A" [("G1", "Owner")] = [] ∧
    convert_csv_to_api_permissions [("A", "cid1")] [("A", [("G1", "Owner")])] "G1" = [] ∧
    (parseRows ["G1"] [("A", [("G1", "Owner")])]).permissions =
      [("A", [("G1", "Owner")])] := by decide

/-- Claim C3 (amended): a matrix cell whose value is outside the four-label
vocabulary is never validated: parse accepts it, the label maps to no rights
tuple, and when the association list is assembled the cell is skipped with a
logged warning, producing no association entry and no default rights tuple;
no validation error is raised. -/
theorem C3_unknown_label_skipped (label : String)
    (h1 : label ≠ "Read") (h2 : label ≠ "Edit") (h3 : label ≠ "Manage") :
    permission_mapping label = none ∧
    ∀ ids g path perms, dictGetD perms g "None" = label →
      assocEntryFor ids g path perms = [] := by
  have hpm : permission_mapping label = none := by
    simp [permission_mapping, h1, h2, h3]
  refine ⟨hpm, ?_⟩
  intro ids g path perms hl
  by_cases hn : label = "None"
  · simp [assocEntryFor, hl, hn]
  · cases hc : lookup? ids path with
    | none => simp [assocEntryFor, hl, hn, hc]
    | some cid =>
      by_cases hcid : cid = ""
      · simp [assocEntryFor, hl, hn, hc, hcid]
      · simp [assocEntryFor, hl, hn, hc, hcid, hpm]

/-- Witness for the amended C3 at the unrecognized label Owner. -/
theorem C3_unknown_label_skipped_witness :
    (("Owner" : String) ≠ "Read") ∧ (("Owner" : String) ≠ "Edit") ∧
    (("Owner" : String) ≠ "Manage") ∧
    (permission_mapping "Owner" = none ∧
      ∀ ids g path perms, dictGetD perms g "None" = "Owner" →
        assocEntryFor ids g path perms = []) :=
  ⟨by decide, by decide, by decide,
    C3_unknown_label_skipped "Owner" (by decide) (by decide) (by decide)⟩

theorem assocEntryFor_unresolved (ids : List (String × String)) (g X : String)
    (cells : List (String × String)) (hX : lookup? ids X = none) :
    assocEntryFor ids g X cells = [] := by
  by_cases hn : dictGetD cells g "None" = "None"
  · simp [assocEntryFor, hn]
  · simp [assocEntryFor, hn, hX]

theorem convert_erase_unresolved (ids : List (String × String)) (g X : String)
    (hX : lookup? ids X = none) (matrix : PermMatrix) :
    convert_csv_to_api_permissions ids matrix g =
      convert_csv_to_api_permissions ids (matrix.filter (fun e => !(e.1 == X))) g := by
  induction matrix with
  | nil => rfl
  | cons e es ih =>
    by_cases he : e.1 = X
    · have hbeq : (e.1 == X) = true := beq_iff_eq.mpr he
      have hent : assocEntryFor ids g e.1 e.2 = [] :=
        he ▸ assocEntryFor_unresolved ids g X e.2 hX
      rw [convert_csv_to_api_permissions, List.flatMap_cons, hent, List.nil_append,
        List.filter_cons, hbeq]
      simp only [Bool.not_true, Bool.false_eq_true, if_false]
      exact ih
    · have hbeq : (e.1 == X) = false := beq_eq_false_iff_ne.mpr he
      rw [convert_csv_to_api_permissions, List.flatMap_cons, List.filter_cons, hbeq]
      simp only [Bool.not_false, eq_self_iff_true, if_true]
      rw [convert_csv_to_api_permissions, List.flatMap_cons]
      exact congrArg (assocEntryFor ids g e.1 e.2 ++ ·) ih

/-- Claim C7: when path X carries a non-None label for a group but has no
resolved collection ID, building the group's association list does not raise
(the embedding is total, mirroring the warn-and-continue branch): X
contributes no entry, removing the X rows changes nothing, and every other
path that resolves to a usable ID and carries a recognized non-None label
still yields its association. -/
theorem C7_partial_resolution_tolerance (ids : List (String × String))
    (matrix : PermMatrix) (g X : String) (hX : lookup? ids X = none) :
    (∀ cells, assocEntryFor ids g X cells = []) ∧
    convert_csv_to_api_permissions ids matrix g =
      convert_csv_to_api_permissions ids (matrix.filter (fun e => !(e.1 == X))) g ∧
    (∀ p cells cid r, (p, cells) ∈ matrix → lookup? ids p = some cid → cid ≠ "" →
      permission_mapping (dictGetD cells g "None") = some r →
      (⟨cid, r.readOnly, r.hidePasswords, r.manage⟩ : Assoc) ∈
        convert_csv_to_api_permissions ids matrix g) := by
  refine ⟨fun cells => assocEntryFor_unresolved ids g X cells hX,
    convert_erase_unresolved ids g X hX matrix, ?_⟩
  intro p cells cid r hmem hcid hne hpm
  refine List.mem_flatMap.mpr ⟨(p, cells), hmem, ?_⟩
  have hln : dictGetD cells g "None" ≠ "None" := by
    intro h
    rw [h] at hpm
    simp [permission_mapping] at hpm
  simp [assocEntryFor, hln, hcid, hne, hpm]

/-- Witness for C7: X is unresolved yet the resolvable Read cell on path A
still produces its association. -/
theorem C7_partial_resolution_tolerance_witness :
    lookup? [("A", "aid")] "X" = none ∧
    (⟨"aid", true, false, false⟩ : Assoc) ∈
      convert_csv_to_api_permissions [("A", "aid")]
        [("A", [("G", "Read")]), ("X", [("G", "Edit")])] "G" :=
  ⟨by decide,
    (C7_partial_resolution_tolerance [("A", "aid")]
        [("A", [("G", "Read")]), ("X", [("G", "Edit")])] "G" "X" (by decide)).2.2
      "A" [("G", "Read")] "aid" ⟨true, false, false⟩ (by decide) (by decide)
      (by decide) (by decide)⟩

/-- Counterexample to claim C5 as stated: the collections phase does not skip
anything.  create_collections_from_paths consults no remote state at all, so
even when collection a already exists remotely the attempt list for the path
list [a] is [a], not empty; the groups phase by contrast skips a group name
that exists remotely. -/
theorem C5_counterexample :
    create_collections_from_paths_attempts [['a']] = [['a']] ∧
    groups_to_create [("G1", "gid")] ["G1"] = [] := by
  constructor
  · exact List.perm_singleton.mp (List.mergeSort_perm [['a']] pyKeyLE)
  · decide

/-- Claim C5 (amended): the groups phase is idempotent via creation-by-name
deduplication: when every CSV group name already exists remotely, no group
creation is attempted; the collections phase is not: it attempts creation of
every path it is given on every run, existing or not. -/
theorem C5_groups_dedup_collections_not (existing_groups : List (String × String))
    (groups_data : List String)
    (h : ∀ g ∈ groups_data, (lookup? existing_groups g).isSome = true) :
    groups_to_create existing_groups groups_data = [] ∧
    ∀ paths, (create_collections_from_paths_attempts paths).Perm paths := by
  constructor
  · rw [groups_to_create, List.filter_eq_nil_iff]
    intro g hg
    simp [h g hg]
  · intro paths
    exact List.mergeSort_perm paths pyKeyLE

/-- Witness for the amended C5: with G1 already existing, nothing is
created. -/
theorem C5_groups_dedup_collections_not_witness :
    (∀ g ∈ ["G1"], (lookup? [("G1", "gid")] g).isSome = true) ∧
    groups_to_create [("G1", "gid")] ["G1"] = [] :=
  ⟨by decide,
    (C5_groups_dedup_collections_not [("G1", "gid")] ["G1"] (by decide)).1⟩

/-- Claim C8: before any group update, the permissions phase validates that
every matrix path has a resolved collection ID and every matrix-referenced
group has a resolved group ID; a missing ID makes validation false and the
whole phase raise ValueError with no update performed. -/
theorem C8_validation_phase_fatal (collection_ids group_ids : List (String × String))
    (permission_matrix : PermMatrix)
    (h : (∃ e ∈ permission_matrix, lookup? collection_ids e.1 = none) ∨
         (∃ e ∈ permission_matrix, ∃ c ∈ e.2, lookup? group_ids c.1 = none)) :
    validate_permissions collection_ids group_ids permission_matrix = false ∧
    assign_all_permissions collection_ids group_ids permission_matrix =
      ([], PhaseOutcome.valueError "Permission validation failed") := by
  have hv : validate_permissions collection_ids group_ids permission_matrix = false := by
    apply Bool.eq_false_iff.mpr
    intro hval
    simp only [validate_permissions, Bool.and_eq_true, List.all_eq_true] at hval
    obtain ⟨⟨⟨⟨_h1, _h2⟩, _h3⟩, hcols⟩, hgroups⟩ := hval
    rcases h with ⟨e, he, hnone⟩ | ⟨e, he, c, hc, hnone⟩
    · have hsome := hcols e he
      rw [hnone] at hsome
      simp at hsome
    · have hrow := hgroups e he
      simp only [List.all_eq_true] at hrow
      have hsome := hrow c hc
      rw [hnone] at hsome
      simp at hsome
  refine ⟨hv, ?_⟩
  simp [assign_all_permissions, hv]

/-- Witness for C8: an empty collection-ID map fails validation for a
one-cell matrix and the phase raises. -/
theorem C8_validation_phase_fatal_witness :
    ((∃ e ∈ ([("A", [("G1", "Read")])] : PermMatrix),
        lookup? ([] : List (String × String)) e.1 = none) ∨
      (∃ e ∈ ([("A", [("G1", "Read")])] : PermMatrix), ∃ c ∈ e.2,
        lookup? [("G1", "gid")] c.1 = none)) ∧
    (validate_permissions [] [("G1", "gid")] [("A", [("G1", "Read")])] = false ∧
      assign_all_permissions [] [("G1", "gid")] [("A", [("G1", "Read")])] =
        ([], PhaseOutcome.valueError "Permission validation failed")) :=
  ⟨Or.inl ⟨("A", [("G1", "Read")]), by decide, by decide⟩,
    C8_validation_phase_fatal [] [("G1", "gid")] [("A", [("G1", "Read")])]
      (Or.inl ⟨("A", [("G1", "Read")]), by decide, by decide⟩)⟩

/-- Claim C9 (code bug): src/bitwarden_permissions.py line 346 calls
logger.finalize_operation, but class BulkLogger defines finalise_operation
(src/bulk_logger.py line 229) and no finalize_operation, so a permissions run
that passes validation performs its group updates and then raises
AttributeError instead of finalising an OperationSummary; the collections and
groups phases call the method by its defined name. -/
theorem C9_finalize_attribute_error :
    ("finalise_operation" ∈ bulkLoggerMethods) ∧
    ("finalize_operation" ∉ bulkLoggerMethods) ∧
    validate_permissions [("A", "aid")] [("G1", "gid")] [("A", [("G1", "Read")])] = true ∧
    assign_all_permissions [("A", "aid")] [("G1", "gid")] [("A", [("G1", "Read")])] =
      ([⟨"G1", "gid", [⟨"aid", true, false, false⟩]⟩],
        PhaseOutcome.attributeError "finalize_operation") := by decide

theorem foldl_mtime_max {s : Nat × List CollectionRecord}
    (xs : List (Nat × List CollectionRecord))
    (hxs : ∀ y ∈ xs, y ≠ s → y.1 < s.1) :
    ∀ best, (best = s ∨ (best.1 < s.1 ∧ s ∈ xs)) →
      xs.foldl (fun best y => if best.1 < y.1 then y else best) best = s := by
  induction xs with
  | nil =>
    intro best hbest
    rcases hbest with h | ⟨_, h⟩
    · simpa using h
    · cases h
  | cons y ys ih =>
    intro best hbest
    rw [List.foldl_cons]
    have hys : ∀ z ∈ ys, z ≠ s → z.1 < s.1 := fun z hz =>
      hxs z (List.mem_cons_of_mem y hz)
    rcases hbest with hb | ⟨hlt, hmem⟩
    · rw [hb]
      by_cases hy : y = s
      · rw [hy, if_neg (lt_irrefl _)]
        exact ih hys s (Or.inl rfl)
      · have hylt : y.1 < s.1 := hxs y (List.mem_cons_self y ys) hy
        rw [if_neg (not_lt.mpr (le_of_lt hylt))]
        exact ih hys s (Or.inl rfl)
    · by_cases hy : y = s
      · rw [hy, if_pos hlt]
        exact ih hys s (Or.inl rfl)
      · have hylt : y.1 < s.1 := hxs y (List.mem_cons_self y ys) hy
        have hmem2 : s ∈ ys := by
          rcases List.mem_cons.mp hmem with h | h
          · exact absurd h.symm hy
          · exact h
        by_cases hcmp : best.1 < y.1
        · rw [if_pos hcmp]
          exact ih hys y (Or.inr ⟨hylt, hmem2⟩)
        · rw [if_neg hcmp]
          exact ih hys best (Or.inr ⟨hlt, hmem2⟩)

theorem maxByMtime_eq (sets : List (Nat × List CollectionRecord))
    (s : Nat × List CollectionRecord) (hs : s ∈ sets)
    (hmax : ∀ t ∈ sets, t ≠ s → t.1 < s.1) :
    maxByMtime sets = some s := by
  cases sets with
  | nil => cases hs
  | cons x xs =>
    show some _ = some s
    congr 1
    apply foldl_mtime_max xs (fun y hy => hmax y (List.mem_cons_of_mem x hy))
    rcases List.mem_cons.mp hs with h | h
    · exact Or.inl h.symm
    · by_cases hx : x = s
      · exact Or.inl hx
      · exact Or.inr ⟨hmax x (List.mem_cons_self x xs) hx, h⟩

theorem isSome_lookup?_dictInsert {α : Type} (m : List (String × α))
    (k key : String) (v : α) :
    (lookup? (dictInsert m k v) key).isSome = true ↔
      key = k ∨ (lookup? m key).isSome = true := by
  by_cases h : key = k
  · subst h
    simp [lookup?_dictInsert_self]
  · rw [lookup?_dictInsert_ne m k key v h]
    simp [h]

theorem build_collection_ids_foldl (entries : List CollectionRecord)
    (acc : List (String × String)) (key : String) :
    (lookup? (entries.foldl
        (fun acc e =>
          if e.status = "created" then dictInsert acc e.collection_path e.collection_id
          else acc) acc) key).isSome = true ↔
      ((lookup? acc key).isSome = true ∨
        ∃ e ∈ entries, e.status = "created" ∧ e.collection_path = key) := by
  induction entries generalizing acc with
  | nil => simp
  | cons e es ih =>
    rw [List.foldl_cons]
    by_cases hs : e.status = "created"
    · rw [if_pos hs, ih, isSome_lookup?_dictInsert, List.exists_mem_cons_iff]
      constructor
      · rintro ((h | h) | h)
        · exact Or.inr (Or.inl ⟨hs, h.symm⟩)
        · exact Or.inl h
        · exact Or.inr (Or.inr h)
      · rintro (h | ⟨hc, hp⟩ | h)
        · exact Or.inl (Or.inr h)
        · exact Or.inl (Or.inl hp.symm)
        · exact Or.inr h
    · rw [if_neg hs, ih, List.exists_mem_cons_iff]
      constructor
      · rintro (h | h)
        · exact Or.inl h
        · exact Or.inr (Or.inr h)
      · rintro (h | ⟨hc, _⟩ | h)
        · exact Or.inl h
        · exact absurd hc hs
        · exact Or.inr h

/-- Claim C6: with several record sets present, load_collection_ids selects
exactly the record set with the most recent modification time and the mapping
it builds contains a key if and only if that key has a record with status
created in that selected set; records with other statuses, and all records of
older sets, are excluded. -/
theorem C6_latest_wins_created_only (sets : List (Nat × List CollectionRecord))
    (s : Nat × List CollectionRecord) (hs : s ∈ sets)
    (hmax : ∀ t ∈ sets, t ≠ s → t.1 < s.1) :
    load_collection_ids sets = some (build_collection_ids s.2) ∧
    ∀ key, (lookup? (build_collection_ids s.2) key).isSome = true ↔
      ∃ e ∈ s.2, e.status = "created" ∧ e.collection_path = key := by
  refine ⟨?_, ?_⟩
  · rw [load_collection_ids, maxByMtime_eq sets s hs hmax]
    rfl
  · intro key
    rw [build_collection_ids, build_collection_ids_foldl]
    simp [lookup?]

/-- Witness for C6 on two record sets with distinct modification times. -/
theorem C6_latest_wins_created_only_witness :
    ((2, [(⟨"A", "newid", "created"⟩ : CollectionRecord), ⟨"B", "", "failed"⟩])
        ∈ sampleRecordSets) ∧
    (∀ t ∈ sampleRecordSets,
      t ≠ (2, [(⟨"A", "newid", "created"⟩ : CollectionRecord), ⟨"B", "", "failed"⟩]) →
        t.1 < 2) ∧
    load_collection_ids sampleRecordSets =
      some (build_collection_ids
        [(⟨"A", "newid", "created"⟩ : CollectionRecord), ⟨"B", "", "failed"⟩]) :=
  ⟨by decide, by decide,
    (C6_latest_wins_created_only sampleRecordSets
      (2, [⟨"A", "newid", "created"⟩, ⟨"B", "", "failed"⟩])
      (by decide) (by decide)).1⟩

end CGMap
